import Mathlib

/-!
Verification development for the BrainLesion preprocessing pipeline.

The definitions below are a shallow embedding of the pipeline orchestrator
(`brainles_preprocessing/preprocessor/preprocessor.py` and
`atlas_centric_preprocessor.py`), the per-modality state machine
(`brainles_preprocessing/modality.py`), the affine transform algebra of the
NiftyReg backend (`registration/niftyreg/niftyreg.py`) and the post-hoc
transform replay utility (`transform.py`).

Modelling conventions:
- file paths are `String`s built with the same f-string patterns as the code;
- external engines (registrators, brain extractors, defacers, N4 correctors)
  only produce files at paths chosen by the caller, so a collaborator call is
  modelled by the path bookkeeping it causes in the calling object;
- Python exceptions are modelled with `Except String`, carrying the message;
- the float matrices of numpy are idealised as matrices over a field.
-/

/-- Matrices are 4x4 over a scalar ring, as in `_compose_affine_transforms`. -/
abbrev Mat4 (R : Type) := Matrix (Fin 4) (Fin 4) R

/-- Embedding of `NiftyRegRegistrator._compose_affine_transforms`: starting
from `matrices[0]`, every later matrix is multiplied FROM THE LEFT
(`composed = mat @ composed`), so the composite of `[T1, ..., Tn]` is
`Tn * ... * T1`.  An empty list raises `IndexError` in Python and is `none`
here. -/
def compose_affine_transforms {R : Type} [Ring R] :
    List (Mat4 R) → Option (Mat4 R)
  | [] => none
  | m :: rest => some (rest.foldl (fun composed mat => mat * composed) m)

/-- Embedding of `NiftyRegRegistrator._invert_affine_transform`, which calls
`np.linalg.inv`: the standard matrix inverse, written explicitly as
`det⁻¹ • adjugate` so that it stays computable. -/
def invert_affine_transform {F : Type} [Field F] (matrix : Mat4 F) : Mat4 F :=
  (matrix.det)⁻¹ • matrix.adjugate

/-- Embedding of the enum `PreprocessorSteps` from `constants.py`. -/
inductive PreprocessorSteps
  | INPUT
  | COREGISTERED
  | ATLAS_REGISTERED
  | ATLAS_CORRECTED
  | N4_BIAS_CORRECTED
  | BET
  | DEFACED
deriving DecidableEq, Repr, Fintype

/-- The `IntEnum` value of each step, fixing the stage order. -/
def PreprocessorSteps.value : PreprocessorSteps → Nat
  | .INPUT => 0
  | .COREGISTERED => 1
  | .ATLAS_REGISTERED => 2
  | .ATLAS_CORRECTED => 3
  | .N4_BIAS_CORRECTED => 4
  | .BET => 5
  | .DEFACED => 6

/-- Pointwise update of a step-indexed dictionary, as in `self.steps[k] = v`. -/
def updStep (f : PreprocessorSteps → Option String) (s : PreprocessorSteps)
    (v : Option String) : PreprocessorSteps → Option String :=
  fun t => if t = s then v else f t

/-- Python `a or b` on two optional paths (`None` is falsy). -/
def pyOr (a b : Option String) : Option String :=
  match a with
  | some x => some x
  | none => b

/-- Embedding of the mutable state of `Modality` (and `CenterModality`; the
two extra mask output paths of the latter only feed `save_mask`, which does
not touch this state).  `normalizer` records whether a normalizer object was
supplied. -/
structure Modality where
  modality_name : String
  input_path : String
  current : String
  normalizer : Bool
  raw_bet_output_path : Option String
  raw_skull_output_path : Option String
  raw_defaced_output_path : Option String
  normalized_bet_output_path : Option String
  normalized_skull_output_path : Option String
  normalized_defaced_output_path : Option String
  atlas_correction : Bool
  n4_bias_correction : Bool
  steps : PreprocessorSteps → Option String
  transformation_paths : PreprocessorSteps → Option String

/-- Embedding of `Modality.__init__` with its validation: it rejects a
construction in which all six output paths are `None`, and rejects each
normalized output path supplied without a normalizer.  On success, `current`
points at the input and only the INPUT step is recorded. -/
def Modality.init (modality_name input_path : String) (normalizer : Bool)
    (raw_bet_output_path raw_skull_output_path raw_defaced_output_path
     normalized_bet_output_path normalized_skull_output_path
     normalized_defaced_output_path : Option String)
    (atlas_correction n4_bias_correction : Bool) : Except String Modality :=
  if raw_bet_output_path.isNone && normalized_bet_output_path.isNone &&
     raw_skull_output_path.isNone && normalized_skull_output_path.isNone &&
     raw_defaced_output_path.isNone && normalized_defaced_output_path.isNone then
    .error "All output paths are None. At least one output paths must be provided."
  else if normalized_bet_output_path.isSome && !normalizer then
    .error "A normalizer must be provided if normalized_bet_output_path is not None."
  else if normalized_skull_output_path.isSome && !normalizer then
    .error "A normalizer must be provided if normalized_skull_output_path is not None."
  else if normalized_defaced_output_path.isSome && !normalizer then
    .error "A normalizer must be provided if normalized_defaced_output_path is not None."
  else
    .ok
      { modality_name := modality_name
        input_path := input_path
        current := input_path
        normalizer := normalizer
        raw_bet_output_path := raw_bet_output_path
        raw_skull_output_path := raw_skull_output_path
        raw_defaced_output_path := raw_defaced_output_path
        normalized_bet_output_path := normalized_bet_output_path
        normalized_skull_output_path := normalized_skull_output_path
        normalized_defaced_output_path := normalized_defaced_output_path
        atlas_correction := atlas_correction
        n4_bias_correction := n4_bias_correction
        steps := updStep (fun _ => none) .INPUT (some input_path)
        transformation_paths := fun _ => none }

/-- The derived property `Modality.bet`: some brain-extracted output is
requested. -/
def Modality.bet (m : Modality) : Bool :=
  m.raw_bet_output_path.isSome || m.normalized_bet_output_path.isSome

/-- The derived property `Modality.requires_deface`: some defaced output is
requested. -/
def Modality.requires_deface (m : Modality) : Bool :=
  m.raw_defaced_output_path.isSome || m.normalized_defaced_output_path.isSome

/-- Embedding of `Modality.register`: the registrator writes the resampled
image and the matrix into `registration_dir`; `current` advances to the
registered image, the step artifact and the transformation matrix are
recorded (`_find_transformation_matrix` globs the matrix file the registrator
just wrote, modelled as that matrix path).  Returns the matrix path, as the
source does. -/
def Modality.register (m : Modality) (registration_dir moving_image_name : String)
    (step : PreprocessorSteps) : Modality × String :=
  let registered := registration_dir ++ "/" ++ moving_image_name ++ ".nii.gz"
  let registered_matrix := registration_dir ++ "/M_" ++ moving_image_name
  ({ m with
      current := registered
      steps := updStep m.steps step (some registered)
      transformation_paths := updStep m.transformation_paths step (some registered_matrix) },
   registered_matrix)

/-- Embedding of `Modality.transform`: the registrator resamples into
`registration_dir_path`; both branches of the source (united transform for
ANTs/NiftyReg at ATLAS_REGISTERED, plain transform otherwise) do the same
state bookkeeping. -/
def Modality.transform (m : Modality)
    (registration_dir_path moving_image_name transformation_matrix_path : String)
    (step : PreprocessorSteps) : Modality :=
  let transformed := registration_dir_path ++ "/" ++ moving_image_name ++ ".nii.gz"
  { m with
      current := transformed
      steps := updStep m.steps step (some transformed)
      transformation_paths :=
        updStep m.transformation_paths step (some transformation_matrix_path) }

/-- Embedding of `Modality.apply_bet_mask`: only a modality that requests a
brain-extracted output is masked; otherwise the call is skipped. -/
def Modality.apply_bet_mask (m : Modality) (mask_path bet_dir : String) : Modality :=
  if m.bet then
    let bet_img := bet_dir ++ "/" ++ m.modality_name ++ "_bet.nii.gz"
    { m with
        current := bet_img
        steps := updStep m.steps .BET (some bet_img) }
  else m

/-- Embedding of `CenterModality.extract_brain_region`: the BET image is
always recorded under the BET step (it may be needed by defacing), but
`current` advances only when the modality itself requests a BET output.
Returns the brain mask path. -/
def Modality.extract_brain_region (m : Modality) (bet_dir_path : String) :
    Modality × String :=
  let bet := bet_dir_path ++ "/" ++ m.modality_name ++ "_bet.nii.gz"
  let mask_path := bet_dir_path ++ "/" ++ m.modality_name ++ "_brain_mask.nii.gz"
  ({ m with
      steps := updStep m.steps .BET (some bet)
      current := if m.bet then bet else m.current },
   mask_path)

/-- The defacers available to the pipeline: `QuickshearDefacer` (the only
implemented one, with its `force_atlas_registration` flag) or any other
user-supplied `Defacer` subclass. -/
inductive Defacer
  | quickshear (force_atlas_registration : Bool)
  | other
deriving DecidableEq, Repr

/-- Embedding of `CenterModality.deface`: with a Quickshear defacer the BET
artifact of the center must already exist, else a `ValueError` is raised; on
success the deface mask path is returned (the optional atlas round trip only
changes how the mask file is produced, not the state).  With any other
defacer the method warns and returns `None`. -/
def Modality.deface (m : Modality) (defacer : Defacer) (defaced_dir_path : String) :
    Except String (Option String) :=
  match defacer with
  | .quickshear _ =>
    let mask_path := defaced_dir_path ++ "/" ++ m.modality_name ++ "_deface_mask.nii.gz"
    match m.steps .BET with
    | none =>
      .error "Brain extraction must be performed before defacing. Please run brain extraction first."
    | some _ => .ok (some mask_path)
  | .other => .ok none

/-- Embedding of `Modality.apply_deface_mask`: a modality that requests a
defaced output is masked, reading from its atlas-corrected (or
atlas-registered) image with the coregistered image as fallback; a missing
input raises `ValueError`, and a `None` mask raises `TypeError` at
`Path(mask_path)`. -/
def Modality.apply_deface_mask (m : Modality) (defacer : Defacer)
    (mask_path : Option String) (deface_dir : String) : Except String Modality :=
  if m.requires_deface then
    match mask_path with
    | none =>
      .error "TypeError: argument should be a str or an os.PathLike object where __fspath__ returns a str, not NoneType"
    | some _ =>
      let defaced_img := deface_dir ++ "/" ++ m.modality_name ++ "_defaced.nii.gz"
      let input_img :=
        pyOr
          (if m.atlas_correction then m.steps .ATLAS_CORRECTED
           else m.steps .ATLAS_REGISTERED)
          (m.steps .COREGISTERED)
      match input_img with
      | none =>
        .error "Input image for defacing is missing. Ensure that the required preprocessing steps have been performed before defacing."
      | some _ =>
        .ok { m with
                current := defaced_img
                steps := updStep m.steps .DEFACED (some defaced_img) }
  else .ok m

/-- Embedding of the N4 correction applied to one modality inside
`BasePreprocessor.run_n4_bias_correction`: corrected output recorded and
`current` advanced when the flag is set, skipped otherwise. -/
def Modality.n4Correct (m : Modality) (n4_bias_correction_dir : String) : Modality :=
  if m.n4_bias_correction then
    let output_path :=
      n4_bias_correction_dir ++ "/N4_bias_corrected__" ++ m.modality_name ++ ".nii.gz"
    { m with
        current := output_path
        steps := updStep m.steps .N4_BIAS_CORRECTED (some output_path) }
  else m

/-- The brain extractors available to the pipeline: the default
`HDBetExtractor` or any other user-supplied `BrainExtractor`. -/
inductive BrainExtractorKind
  | hdbet
  | custom
deriving DecidableEq, Repr

/-- First occurrences of each name, in order: the iteration order of the
`Counter` built in `_check_for_name_conflicts`. -/
def firstOccurrences : List String → List String
  | [] => []
  | n :: rest => n :: (firstOccurrences rest).filter (fun x => x ≠ n)

/-- The `duplicates` list of `BasePreprocessor._check_for_name_conflicts`:
every name occurring more than once, listed once each. -/
def duplicates (names : List String) : List String :=
  (firstOccurrences names).filter (fun n => 1 < names.count n)

/-- Embedding of `BasePreprocessor._check_for_name_conflicts`. -/
def check_for_name_conflicts (names : List String) : Except String Unit :=
  let dups := duplicates names
  if dups.isEmpty then .ok ()
  else .error ("Duplicate modality names found: " ++ String.intercalate ", " dups)

/-- The orchestrator state: the fields of `BasePreprocessor` that the pipeline
reads or writes, together with `betDirCreated` (whether the brain-extraction
working directory under the temp folder has been created) and the warning/info
log. -/
structure PipelineState where
  temp_folder : String
  center : Modality
  moving : List Modality
  brain_extractor : Option BrainExtractorKind
  defacer : Option Defacer
  betDirCreated : Bool
  log : List String

/-- Embedding of `BasePreprocessor.__init__` (the modality bookkeeping part):
it stores center and moving modalities and fails on duplicate names. -/
def BasePreprocessor.init (center : Modality) (moving : List Modality)
    (brain_extractor : Option BrainExtractorKind) (defacer : Option Defacer)
    (temp_folder : String) : Except String PipelineState :=
  match check_for_name_conflicts ((center :: moving).map (fun m => m.modality_name)) with
  | .error e => .error e
  | .ok _ =>
    .ok
      { temp_folder := temp_folder
        center := center
        moving := moving
        brain_extractor := brain_extractor
        defacer := defacer
        betDirCreated := false
        log := [] }

/-- `BasePreprocessor.all_modalities`: center first, then the moving ones. -/
def PipelineState.all_modalities (s : PipelineState) : List Modality :=
  s.center :: s.moving

/-- `BasePreprocessor.requires_defacing`. -/
def PipelineState.requires_defacing (s : PipelineState) : Bool :=
  s.all_modalities.any (fun m => m.requires_deface)

/-- Embedding of `BasePreprocessor.run_coregistration`: every moving modality
is registered to the center; the center records its own COREGISTERED step as
its INPUT step for chain consistency. -/
def run_coregistration (s : PipelineState) : PipelineState :=
  let coregistration_dir := s.temp_folder ++ "/coregistration"
  let moving := s.moving.map fun m =>
    (m.register coregistration_dir
      ("co__" ++ s.center.modality_name ++ "__" ++ m.modality_name)
      .COREGISTERED).1
  let center :=
    { s.center with
        steps := updStep s.center.steps .COREGISTERED (s.center.steps .INPUT) }
  { s with center := center, moving := moving }

/-- Embedding of `AtlasCentricPreprocessor.run_atlas_registration`: the center
registers to the atlas, and every moving modality is transformed with the
resulting matrix. -/
def run_atlas_registration (s : PipelineState) : PipelineState :=
  let atlas_dir := s.temp_folder ++ "/atlas-space"
  let reg := s.center.register atlas_dir
    ("atlas__" ++ s.center.modality_name) .ATLAS_REGISTERED
  let center := reg.1
  let transformation_matrix := reg.2
  let moving := s.moving.map fun m =>
    m.transform atlas_dir ("atlas__" ++ m.modality_name)
      transformation_matrix .ATLAS_REGISTERED
  { s with center := center, moving := moving }

/-- Embedding of `AtlasCentricPreprocessor.run_atlas_correction`: each flagged
moving modality re-registers against the center; a flagged center only copies
its current image to a new ATLAS_CORRECTED artifact, without advancing
`current`. -/
def run_atlas_correction (s : PipelineState) : PipelineState :=
  let atlas_correction_dir := s.temp_folder ++ "/atlas-correction"
  let moving := s.moving.map fun m =>
    if m.atlas_correction then
      (m.register atlas_correction_dir
        ("atlas_corrected__" ++ s.center.modality_name ++ "__" ++ m.modality_name)
        .ATLAS_CORRECTED).1
    else m
  let center :=
    if s.center.atlas_correction then
      let center_atlas_corrected_path :=
        atlas_correction_dir ++ "/atlas_corrected__" ++ s.center.modality_name ++ ".nii.gz"
      { s.center with
          steps := updStep s.center.steps .ATLAS_CORRECTED (some center_atlas_corrected_path) }
    else s.center
  { s with center := center, moving := moving }

/-- Embedding of `BasePreprocessor.run_n4_bias_correction` over all
modalities. -/
def run_n4_bias_correction (s : PipelineState) : PipelineState :=
  let n4_bias_correction_dir := s.temp_folder ++ "/n4-bias-correction"
  { s with
      center := s.center.n4Correct n4_bias_correction_dir
      moving := s.moving.map (fun m => m.n4Correct n4_bias_correction_dir) }

/-- Does `run_brain_extraction` treat the configured defacer as needing a
brain-extracted reference?  Quickshear is the default defacer, so a missing
defacer also counts. -/
def defacerNeedsBet (defacer : Option Defacer) : Bool :=
  match defacer with
  | some (.quickshear _) => true
  | some .other => false
  | none => true

/-- The warning emitted when brain extraction is needed without an extractor. -/
def hdbetFallbackWarning : String :=
  "Brain extraction is required to compute specified outputs but no brain extractor was specified during class initialization. Using default brainles_preprocessing.brain_extraction.HDBetExtractor"

/-- Embedding of `BasePreprocessor.run_brain_extraction`: skipped unless some
modality wants a BET output or a downstream defacing needs it; otherwise the
working directory is created, a missing brain extractor falls back to HD-BET
with a warning, the center is brain-extracted and the mask applied to every
moving modality. -/
def run_brain_extraction (s : PipelineState) : PipelineState :=
  let brain_extraction := s.all_modalities.any (fun m => m.bet)
  let required_downstream := s.requires_defacing && defacerNeedsBet s.defacer
  if !brain_extraction && !required_downstream then
    { s with log := s.log ++ ["Skipping brain extraction."] }
  else
    let bet_dir := s.temp_folder ++ "/brain-extraction"
    let withExtractor :=
      match s.brain_extractor with
      | none =>
        ({ s with log := s.log ++ [hdbetFallbackWarning] }, BrainExtractorKind.hdbet)
      | some be => (s, be)
    let s := withExtractor.1
    let extraction := s.center.extract_brain_region bet_dir
    let center := extraction.1
    let atlas_mask := extraction.2
    let moving := s.moving.map (fun m => m.apply_bet_mask atlas_mask bet_dir)
    { s with
        center := center
        moving := moving
        brain_extractor := some withExtractor.2
        betDirCreated := true }

/-- Sequential, fail-fast mapping of a fallible operation over a list, as a
Python `for` loop over modalities raising on the first error. -/
def mapExcept (f : Modality → Except String Modality) :
    List Modality → Except String (List Modality)
  | [] => .ok []
  | a :: l =>
    match f a with
    | .error e => .error e
    | .ok b =>
      match mapExcept f l with
      | .error e => .error e
      | .ok bs => .ok (b :: bs)

/-- The warning emitted when defacing is requested without a defacer. -/
def quickshearFallbackWarning : String :=
  "Requested defacing but no defacer was specified during class initialization. Using default brainles_preprocessing.defacing.QuickshearDefacer"

/-- Embedding of `AtlasCentricPreprocessor.run_defacing`: skipped when no
modality requests a defaced output; otherwise a missing defacer falls back to
`QuickshearDefacer()` with a warning, the deface mask is computed once on the
center, and applied to every modality (center first). -/
def run_defacing_main (s : PipelineState) (defacer : Defacer) :
    Except String PipelineState :=
  let deface_dir := s.temp_folder ++ "/deface"
  match s.center.deface defacer deface_dir with
  | .error e => .error e
  | .ok atlas_mask =>
    match s.center.apply_deface_mask defacer atlas_mask deface_dir with
    | .error e => .error e
    | .ok center =>
      match mapExcept (fun m => m.apply_deface_mask defacer atlas_mask deface_dir) s.moving with
      | .error e => .error e
      | .ok moving =>
        .ok { s with center := center, moving := moving, defacer := some defacer }

def run_defacing (s : PipelineState) : Except String PipelineState :=
  if !s.requires_defacing then
    .ok { s with log := s.log ++ ["Skipping optional defacing."] }
  else
    match s.defacer with
    | none =>
      run_defacing_main { s with log := s.log ++ [quickshearFallbackWarning] }
        (Defacer.quickshear true)
    | some d => run_defacing_main s d

/-- Embedding of `AtlasCentricPreprocessor.run`: coregistration, atlas
registration, optional atlas correction, optional N4 correction, saving of
skull outputs (pure file copies, no modality state change), conditional brain
extraction, conditional defacing.  The final saving of output files and
transformation matrices copies files without changing modality state. -/
def AtlasCentricPreprocessor.run (s : PipelineState) : Except String PipelineState :=
  run_defacing
    (run_brain_extraction
      (run_n4_bias_correction
        (run_atlas_correction
          (run_atlas_registration
            (run_coregistration s)))))

/-- The byte-wise string order used by Python when sorting path names. -/
def strLeProp (a b : String) : Prop := a.data ≤ b.data

instance : DecidableRel strLeProp := fun a b =>
  inferInstanceAs (Decidable (a.data ≤ b.data))

/-- Insertion of a name into a sorted list of names. -/
def insertName (x : String) : List String → List String
  | [] => [x]
  | y :: l => if strLeProp x y then x :: y :: l else y :: insertName x l

/-- `transforms.sort()` of `Transform.apply`: sorting the directory entries by
name (insertion sort, a faithful model of the Python list sort on paths of a
single directory). -/
def sortNames (l : List String) : List String := l.foldr insertName []

/-- The single registrator invocation made by `Transform.apply`: which method
is called and the matrix paths passed, in order. -/
structure RegistratorCall where
  inverse : Bool
  matrices : List String
deriving DecidableEq, Repr

/-- Embedding of `Transform.apply`.  The filesystem is a map from directory
path to its entries (`none` when the directory does not exist).  The method
asserts that the per-modality transformations directory exists, sorts its
entries by name, reverses them when `inverse` is set, and hands them to the
registrator (`transform` or `inverse_transform`). -/
def Transform.apply (fs : String → Option (List String))
    (transformations_dir target_modality_name : String) (inverse : Bool) :
    Except String RegistratorCall :=
  let modality_transformations_dir :=
    transformations_dir ++ "/" ++ target_modality_name
  match fs modality_transformations_dir with
  | none =>
    .error ("Transformations directory for " ++ target_modality_name ++
      " does not exist: " ++ modality_transformations_dir)
  | some entries =>
    let transforms := sortNames entries
    let transforms := if inverse then transforms.reverse else transforms
    .ok { inverse := inverse, matrices := transforms }

/-- The highest stage, in the fixed `PreprocessorSteps` order, that has a
recorded artifact in the steps map of a modality. -/
def Modality.highestRecorded (m : Modality) : Option PreprocessorSteps :=
  if (m.steps .DEFACED).isSome then some .DEFACED
  else if (m.steps .BET).isSome then some .BET
  else if (m.steps .N4_BIAS_CORRECTED).isSome then some .N4_BIAS_CORRECTED
  else if (m.steps .ATLAS_CORRECTED).isSome then some .ATLAS_CORRECTED
  else if (m.steps .ATLAS_REGISTERED).isSome then some .ATLAS_REGISTERED
  else if (m.steps .COREGISTERED).isSome then some .COREGISTERED
  else if (m.steps .INPUT).isSome then some .INPUT
  else none

/-- The claimed invariant: the mutable `current` pointer equals the artifact
recorded for the highest stage with a non-null entry. -/
def Modality.currentAtHighest (m : Modality) : Bool :=
  match m.highestRecorded with
  | some s => m.steps s == some m.current
  | none => true

/-- One pipeline operation grows a modality: the static configuration is kept,
recorded steps stay recorded, and no DEFACED artifact appears. -/
def Grows (m m' : Modality) : Prop :=
  m'.modality_name = m.modality_name ∧
  m'.bet = m.bet ∧
  m'.requires_deface = m.requires_deface ∧
  m'.atlas_correction = m.atlas_correction ∧
  m'.n4_bias_correction = m.n4_bias_correction ∧
  (∀ t, (m.steps t).isSome = true → (m'.steps t).isSome = true) ∧
  (m.steps .DEFACED = none → m'.steps .DEFACED = none)

/-- What phases 1 to 4 do to the orchestrator state: modalities grow, the
collaborator slots and flags are untouched, the log only extends. -/
def StagePreserves (s s' : PipelineState) : Prop :=
  Grows s.center s'.center ∧
  List.Forall₂ Grows s.moving s'.moving ∧
  s'.temp_folder = s.temp_folder ∧
  s'.defacer = s.defacer ∧
  s'.brain_extractor = s.brain_extractor ∧
  s'.betDirCreated = s.betDirCreated ∧
  (∀ w ∈ s.log, w ∈ s'.log)

/-- The composite of the four unconditional stages that precede brain
extraction in `AtlasCentricPreprocessor.run`. -/
def runStages1to4 (s : PipelineState) : PipelineState :=
  run_n4_bias_correction (run_atlas_correction (run_atlas_registration (run_coregistration s)))

/-- The condition under which `run_brain_extraction` actually runs. -/
def betStageNeeded (s : PipelineState) : Bool :=
  (s.all_modalities.any fun m => m.bet) ||
    (s.requires_defacing && defacerNeedsBet s.defacer)

/-- A modality value as produced by a successful `Modality.init` call, used as
a test fixture for concrete instantiations. -/
def mkTestModality (name input : String)
    (rawBet rawSkull rawDefaced : Option String) : Modality :=
  { modality_name := name
    input_path := input
    current := input
    normalizer := false
    raw_bet_output_path := rawBet
    raw_skull_output_path := rawSkull
    raw_defaced_output_path := rawDefaced
    normalized_bet_output_path := none
    normalized_skull_output_path := none
    normalized_defaced_output_path := none
    atlas_correction := true
    n4_bias_correction := false
    steps := updStep (fun _ => none) .INPUT (some input)
    transformation_paths := fun _ => none }

def fixT1skull : Modality :=
  mkTestModality "T1" "t1.nii.gz" none (some "out/t1_skull.nii.gz") none

def fixT2skull : Modality :=
  mkTestModality "T2" "t2.nii.gz" none (some "out/t2_skull.nii.gz") none

def fixFLAIRskull : Modality :=
  mkTestModality "FLAIR" "flair.nii.gz" none (some "out/flair_skull.nii.gz") none

def fixT1dup : Modality :=
  mkTestModality "T1" "t1b.nii.gz" none (some "out/t1b_skull.nii.gz") none

def fixFLAIRdup : Modality :=
  mkTestModality "FLAIR" "flairb.nii.gz" none (some "out/flairb_skull.nii.gz") none

def fixT1deface : Modality :=
  mkTestModality "T1" "t1.nii.gz" none none (some "out/t1_defaced.nii.gz")

def fixT2deface : Modality :=
  mkTestModality "T2" "t2.nii.gz" none none (some "out/t2_defaced.nii.gz")

def fixT2bet : Modality :=
  mkTestModality "T2" "t2.nii.gz" (some "out/t2_bet.nii.gz") none none

def composeWitnessA : Mat4 ℤ :=
  !![1, 0, 0, 1; 0, 1, 0, 0; 0, 0, 1, 0; 0, 0, 0, 1]

def composeWitnessB : Mat4 ℤ :=
  !![0, -1, 0, 0; 1, 0, 0, 0; 0, 0, 1, 0; 0, 0, 0, 1]

def invertWitnessM : Mat4 ℚ :=
  !![0, -1, 0, 2; 1, 0, 0, 3; 0, 0, 1, 4; 0, 0, 0, 1]

def fsWitness : String → Option (List String) :=
  fun p => if p = "transformations/T1" then
    some ["2_M_atlas__T1.txt", "1_M_co__T1__T2.txt"] else none

def cfgC5 : PipelineState :=
  { temp_folder := "tmp"
    center := fixT1skull
    moving := [fixT2skull]
    brain_extractor := none
    defacer := none
    betDirCreated := false
    log := [] }

def cfgC9 : PipelineState :=
  { temp_folder := "tmp"
    center := fixT1deface
    moving := [fixT2skull]
    brain_extractor := none
    defacer := none
    betDirCreated := false
    log := [] }

def cfgC1 : PipelineState :=
  { temp_folder := "tmp"
    center := fixT1deface
    moving := [fixT2deface]
    brain_extractor := none
    defacer := none
    betDirCreated := false
    log := [] }

theorem invert_affine_transform_eq_inv {F : Type} [Field F] (M : Mat4 F) :
    invert_affine_transform M = M⁻¹ := by
  rw [invert_affine_transform, Matrix.inv_def, Ring.inverse_eq_inv]

theorem insertName_perm (x : String) (l : List String) :
    (insertName x l).Perm (x :: l) := by
  induction l with
  | nil => simp [insertName]
  | cons y l ih =>
    by_cases h : strLeProp x y
    · simp [insertName, h]
    · simp only [insertName, if_neg h]
      exact (ih.cons y).trans (List.Perm.swap x y l)

theorem insertName_sorted (x : String) (l : List String)
    (h : l.Sorted strLeProp) : (insertName x l).Sorted strLeProp := by
  induction l with
  | nil => simp [insertName]
  | cons y l ih =>
    rw [List.sorted_cons] at h
    by_cases hxy : strLeProp x y
    · rw [insertName, if_pos hxy, List.sorted_cons]
      refine ⟨?_, by rw [List.sorted_cons]; exact h⟩
      intro b hb
      rcases List.mem_cons.1 hb with rfl | hb
      · exact hxy
      · exact le_trans (α := List Char) hxy (h.1 b hb)
    · rw [insertName, if_neg hxy, List.sorted_cons]
      constructor
      · intro b hb
        have hb2 := (insertName_perm x l).mem_iff.1 hb
        rcases List.mem_cons.1 hb2 with rfl | hb3
        · exact le_of_not_le (α := List Char) hxy
        · exact h.1 b hb3
      · exact ih h.2

theorem sortNames_perm (l : List String) : (sortNames l).Perm l := by
  induction l with
  | nil => simp [sortNames]
  | cons x l ih =>
    exact (insertName_perm x (sortNames l)).trans (ih.cons x)

theorem sortNames_sorted (l : List String) : (sortNames l).Sorted strLeProp := by
  induction l with
  | nil => simp [sortNames]
  | cons x l ih => exact insertName_sorted x (sortNames l) ih

theorem highestRecorded_eq_of (m : Modality) (s : PreprocessorSteps)
    (hs : (m.steps s).isSome = true)
    (hmax : ∀ t, (m.steps t).isSome = true → t.value ≤ s.value) :
    m.highestRecorded = some s := by
  have hn : ∀ t, s.value < t.value → m.steps t = none := by
    intro t ht
    cases h : m.steps t with
    | none => rfl
    | some v =>
      have := hmax t (by simp [h])
      omega
  cases s with
  | DEFACED => simp [Modality.highestRecorded, hs]
  | BET =>
    simp [Modality.highestRecorded, hs, hn .DEFACED (by decide)]
  | N4_BIAS_CORRECTED =>
    simp [Modality.highestRecorded, hs, hn .DEFACED (by decide), hn .BET (by decide)]
  | ATLAS_CORRECTED =>
    simp [Modality.highestRecorded, hs, hn .DEFACED (by decide), hn .BET (by decide),
      hn .N4_BIAS_CORRECTED (by decide)]
  | ATLAS_REGISTERED =>
    simp [Modality.highestRecorded, hs, hn .DEFACED (by decide), hn .BET (by decide),
      hn .N4_BIAS_CORRECTED (by decide), hn .ATLAS_CORRECTED (by decide)]
  | COREGISTERED =>
    simp [Modality.highestRecorded, hs, hn .DEFACED (by decide), hn .BET (by decide),
      hn .N4_BIAS_CORRECTED (by decide), hn .ATLAS_CORRECTED (by decide),
      hn .ATLAS_REGISTERED (by decide)]
  | INPUT =>
    simp [Modality.highestRecorded, hs, hn .DEFACED (by decide), hn .BET (by decide),
      hn .N4_BIAS_CORRECTED (by decide), hn .ATLAS_CORRECTED (by decide),
      hn .ATLAS_REGISTERED (by decide), hn .COREGISTERED (by decide)]

theorem currentAtHighest_of (m : Modality) (s : PreprocessorSteps)
    (hs : m.steps s = some m.current)
    (hmax : ∀ t, (m.steps t).isSome = true → t.value ≤ s.value) :
    m.currentAtHighest = true := by
  have hr : m.highestRecorded = some s :=
    highestRecorded_eq_of m s (by simp [hs]) hmax
  simp [Modality.currentAtHighest, hr, hs]

theorem grows_refl (m : Modality) : Grows m m :=
  ⟨rfl, rfl, rfl, rfl, rfl, fun _ h => h, fun h => h⟩

theorem grows_trans {a b c : Modality} (h1 : Grows a b) (h2 : Grows b c) :
    Grows a c := by
  obtain ⟨n1, b1, d1, a1, q1, s1, z1⟩ := h1
  obtain ⟨n2, b2, d2, a2, q2, s2, z2⟩ := h2
  exact ⟨n2.trans n1, b2.trans b1, d2.trans d1, a2.trans a1, q2.trans q1,
    fun t h => s2 t (s1 t h), fun h => z2 (z1 h)⟩

theorem updStep_isSome_mono (f : PreprocessorSteps → Option String)
    (s : PreprocessorSteps) (p : String) (t : PreprocessorSteps)
    (h : (f t).isSome = true) : (updStep f s (some p) t).isSome = true := by
  simp only [updStep]
  split <;> simp [h]

theorem updStep_none_of_ne (f : PreprocessorSteps → Option String)
    (s : PreprocessorSteps) (v : Option String) (t : PreprocessorSteps)
    (hne : t ≠ s) (h : f t = none) : updStep f s v t = none := by
  simp [updStep, hne, h]

theorem grows_register (m : Modality) (d n : String) (step : PreprocessorSteps)
    (h : step ≠ .DEFACED) : Grows m (m.register d n step).1 := by
  refine ⟨rfl, rfl, rfl, rfl, rfl, ?_, ?_⟩
  · intro t ht
    exact updStep_isSome_mono m.steps step _ t ht
  · intro h0
    show updStep m.steps step _ .DEFACED = none
    simp [updStep, Ne.symm h, h0]

theorem grows_transform (m : Modality) (d n mp : String) (step : PreprocessorSteps)
    (h : step ≠ .DEFACED) : Grows m (m.transform d n mp step) := by
  refine ⟨rfl, rfl, rfl, rfl, rfl, ?_, ?_⟩
  · intro t ht
    exact updStep_isSome_mono m.steps step _ t ht
  · intro h0
    show updStep m.steps step _ .DEFACED = none
    simp [updStep, Ne.symm h, h0]

theorem grows_apply_bet_mask (m : Modality) (mk d : String) :
    Grows m (m.apply_bet_mask mk d) := by
  by_cases hb : m.bet
  · refine ⟨?_, ?_, ?_, ?_, ?_, ?_, ?_⟩
    · simp [Modality.apply_bet_mask, hb]
    · simp [Modality.apply_bet_mask, Modality.bet, hb] at hb ⊢
      simp [hb]
    · simp [Modality.apply_bet_mask, Modality.requires_deface, hb]
    · simp [Modality.apply_bet_mask, hb]
    · simp [Modality.apply_bet_mask, hb]
    · intro t ht
      simp only [Modality.apply_bet_mask, hb, if_true]
      exact updStep_isSome_mono m.steps .BET _ t ht
    · intro h0
      simp only [Modality.apply_bet_mask, hb, if_true]
      show updStep m.steps .BET _ .DEFACED = none
      simp [updStep, h0]
  · simp only [Modality.apply_bet_mask, hb, Bool.false_eq_true, if_false]
    exact grows_refl m

theorem grows_extract_brain_region (m : Modality) (d : String) :
    Grows m (m.extract_brain_region d).1 := by
  refine ⟨rfl, rfl, rfl, rfl, rfl, ?_, ?_⟩
  · intro t ht
    exact updStep_isSome_mono m.steps .BET _ t ht
  · intro h0
    simp [Modality.extract_brain_region, updStep, h0]

theorem grows_n4Correct (m : Modality) (d : String) :
    Grows m (m.n4Correct d) := by
  by_cases hb : m.n4_bias_correction
  · refine ⟨?_, ?_, ?_, ?_, ?_, ?_, ?_⟩
    · simp [Modality.n4Correct, hb]
    · simp [Modality.n4Correct, Modality.bet, hb]
    · simp [Modality.n4Correct, Modality.requires_deface, hb]
    · simp [Modality.n4Correct, hb]
    · simp [Modality.n4Correct, hb]
    · intro t ht
      simp only [Modality.n4Correct, hb, if_true]
      exact updStep_isSome_mono m.steps .N4_BIAS_CORRECTED _ t ht
    · intro h0
      simp only [Modality.n4Correct, hb, if_true]
      show updStep m.steps .N4_BIAS_CORRECTED _ .DEFACED = none
      simp [updStep, h0]
  · simp only [Modality.n4Correct, hb, Bool.false_eq_true, if_false]
    exact grows_refl m

theorem forall₂_grows_map {l : List Modality} {f : Modality → Modality}
    (h : ∀ m ∈ l, Grows m (f m)) : List.Forall₂ Grows l (l.map f) := by
  induction l with
  | nil => simp
  | cons a l ih =>
    simp only [List.map_cons]
    exact List.Forall₂.cons (h a (by simp)) (ih fun m hm => h m (by simp [hm]))

theorem forall₂_grows_trans {a b c : List Modality}
    (h1 : List.Forall₂ Grows a b) (h2 : List.Forall₂ Grows b c) :
    List.Forall₂ Grows a c := by
  induction h1 generalizing c with
  | nil => cases h2; exact List.Forall₂.nil
  | cons hab h ih =>
    cases h2 with
    | cons hbc h2 => exact List.Forall₂.cons (grows_trans hab hbc) (ih h2)

theorem forall₂_grows_mem_right {l l' : List Modality}
    (h : List.Forall₂ Grows l l') : ∀ m' ∈ l', ∃ m ∈ l, Grows m m' := by
  induction h with
  | nil => simp
  | cons hab h ih =>
    intro m' hm'
    rcases List.mem_cons.1 hm' with rfl | hm'
    · exact ⟨_, by simp, hab⟩
    · obtain ⟨m, hm, hg⟩ := ih m' hm'
      exact ⟨m, by simp [hm], hg⟩

theorem stagePreserves_trans {a b c : PipelineState}
    (h1 : StagePreserves a b) (h2 : StagePreserves b c) : StagePreserves a c := by
  obtain ⟨c1, m1, t1, d1, e1, f1, l1⟩ := h1
  obtain ⟨c2, m2, t2, d2, e2, f2, l2⟩ := h2
  exact ⟨grows_trans c1 c2, forall₂_grows_trans m1 m2, t2.trans t1, d2.trans d1,
    e2.trans e1, f2.trans f1, fun w hw => l2 w (l1 w hw)⟩

theorem stage_run_coregistration (s : PipelineState)
    (hin : (s.center.steps .INPUT).isSome = true) :
    StagePreserves s (run_coregistration s) := by
  refine ⟨?_, ?_, rfl, rfl, rfl, rfl, fun w hw => hw⟩
  · refine ⟨rfl, rfl, rfl, rfl, rfl, ?_, ?_⟩
    · intro t ht
      show (updStep s.center.steps .COREGISTERED (s.center.steps .INPUT) t).isSome = true
      simp only [updStep]
      split
      · exact hin
      · exact ht
    · intro h0
      show updStep s.center.steps .COREGISTERED (s.center.steps .INPUT) .DEFACED = none
      simp [updStep, h0]
  · exact forall₂_grows_map fun m _ =>
      grows_register m _ _ .COREGISTERED (by decide)

theorem stage_run_atlas_registration (s : PipelineState) :
    StagePreserves s (run_atlas_registration s) := by
  refine ⟨?_, ?_, rfl, rfl, rfl, rfl, fun w hw => hw⟩
  · exact grows_register s.center _ _ .ATLAS_REGISTERED (by decide)
  · exact forall₂_grows_map fun m _ =>
      grows_transform m _ _ _ .ATLAS_REGISTERED (by decide)

theorem stage_run_atlas_correction (s : PipelineState) :
    StagePreserves s (run_atlas_correction s) := by
  refine ⟨?_, ?_, rfl, rfl, rfl, rfl, fun w hw => hw⟩
  · show Grows s.center (if s.center.atlas_correction then _ else s.center)
    by_cases hac : s.center.atlas_correction
    · rw [if_pos hac]
      refine ⟨rfl, rfl, rfl, rfl, rfl, ?_, ?_⟩
      · intro t ht
        exact updStep_isSome_mono s.center.steps .ATLAS_CORRECTED _ t ht
      · intro h0
        simp [updStep, h0]
    · rw [if_neg hac]
      exact grows_refl s.center
  · refine forall₂_grows_map fun m _ => ?_
    by_cases hac : m.atlas_correction
    · simp only [hac, if_true]
      exact grows_register m _ _ .ATLAS_CORRECTED (by decide)
    · simp only [hac, Bool.false_eq_true, if_false]
      exact grows_refl m

theorem stage_run_n4_bias_correction (s : PipelineState) :
    StagePreserves s (run_n4_bias_correction s) := by
  refine ⟨?_, ?_, rfl, rfl, rfl, rfl, fun w hw => hw⟩
  · exact grows_n4Correct s.center _
  · exact forall₂_grows_map fun m _ => grows_n4Correct m _

theorem stage_runStages1to4 (s : PipelineState)
    (hin : (s.center.steps .INPUT).isSome = true) :
    StagePreserves s (runStages1to4 s) :=
  stagePreserves_trans (stage_run_coregistration s hin)
    (stagePreserves_trans (stage_run_atlas_registration _)
      (stagePreserves_trans (stage_run_atlas_correction _)
        (stage_run_n4_bias_correction _)))

theorem coreg_all_coregistered (s : PipelineState)
    (hin : (s.center.steps .INPUT).isSome = true) :
    ∀ m ∈ (run_coregistration s).all_modalities,
      (m.steps .COREGISTERED).isSome = true := by
  intro m hm
  rcases List.mem_cons.1 hm with rfl | hm
  · show (updStep s.center.steps .COREGISTERED (s.center.steps .INPUT)
      .COREGISTERED).isSome = true
    simp [updStep, hin]
  · simp only [PipelineState.all_modalities, run_coregistration] at hm
    obtain ⟨m0, _, rfl⟩ := List.mem_map.1 hm
    simp [Modality.register, updStep]

theorem stagePreserves_all_coregistered {s s' : PipelineState}
    (h : StagePreserves s s')
    (hc : ∀ m ∈ s.all_modalities, (m.steps .COREGISTERED).isSome = true) :
    ∀ m ∈ s'.all_modalities, (m.steps .COREGISTERED).isSome = true := by
  intro m hm
  rcases List.mem_cons.1 hm with rfl | hm
  · exact h.1.2.2.2.2.2.1 .COREGISTERED (hc s.center (by simp [PipelineState.all_modalities]))
  · obtain ⟨m0, hm0, hg⟩ := forall₂_grows_mem_right h.2.1 m hm
    exact hg.2.2.2.2.2.1 .COREGISTERED (hc m0 (by simp [PipelineState.all_modalities, hm0]))

theorem stagePreserves_no_defaced {s s' : PipelineState}
    (h : StagePreserves s s')
    (hc : ∀ m ∈ s.all_modalities, m.steps .DEFACED = none) :
    ∀ m ∈ s'.all_modalities, m.steps .DEFACED = none := by
  intro m hm
  rcases List.mem_cons.1 hm with rfl | hm
  · exact h.1.2.2.2.2.2.2 (hc s.center (by simp [PipelineState.all_modalities]))
  · obtain ⟨m0, hm0, hg⟩ := forall₂_grows_mem_right h.2.1 m hm
    exact hg.2.2.2.2.2.2 (hc m0 (by simp [PipelineState.all_modalities, hm0]))

theorem stagePreserves_flags {s s' : PipelineState}
    (h : StagePreserves s s')
    (hc : ∀ m ∈ s.all_modalities, m.bet = false ∧ m.requires_deface = false) :
    ∀ m ∈ s'.all_modalities, m.bet = false ∧ m.requires_deface = false := by
  intro m hm
  rcases List.mem_cons.1 hm with rfl | hm
  · have := hc s.center (by simp [PipelineState.all_modalities])
    exact ⟨h.1.2.1.trans this.1, h.1.2.2.1.trans this.2⟩
  · obtain ⟨m0, hm0, hg⟩ := forall₂_grows_mem_right h.2.1 m hm
    have := hc m0 (by simp [PipelineState.all_modalities, hm0])
    exact ⟨hg.2.1.trans this.1, hg.2.2.1.trans this.2⟩

theorem forall₂_grows_any_deface {l l' : List Modality}
    (h : List.Forall₂ Grows l l') :
    (l'.any fun m => m.requires_deface) = (l.any fun m => m.requires_deface) := by
  induction h with
  | nil => rfl
  | cons hab hrest ih =>
    simp only [List.any_cons]
    rw [hab.2.2.1, ih]

theorem forall₂_grows_any_bet {l l' : List Modality}
    (h : List.Forall₂ Grows l l') :
    (l'.any fun m => m.bet) = (l.any fun m => m.bet) := by
  induction h with
  | nil => rfl
  | cons hab hrest ih =>
    simp only [List.any_cons]
    rw [hab.2.1, ih]

theorem stagePreserves_requires_defacing {s s' : PipelineState}
    (h : StagePreserves s s') :
    s'.requires_defacing = s.requires_defacing := by
  simp only [PipelineState.requires_defacing, PipelineState.all_modalities,
    List.any_cons]
  rw [h.1.2.2.1, forall₂_grows_any_deface h.2.1]

theorem stagePreserves_any_bet {s s' : PipelineState}
    (h : StagePreserves s s') :
    (s'.all_modalities.any fun m => m.bet) = (s.all_modalities.any fun m => m.bet) := by
  simp only [PipelineState.all_modalities, List.any_cons]
  rw [h.1.2.1, forall₂_grows_any_bet h.2.1]

theorem run_brain_extraction_skip (s : PipelineState)
    (hc : betStageNeeded s = false) :
    run_brain_extraction s = { s with log := s.log ++ ["Skipping brain extraction."] } := by
  simp only [betStageNeeded, Bool.or_eq_false_iff] at hc
  simp [run_brain_extraction, hc.1, hc.2]

theorem betStageNeeded_false_parts (s : PipelineState)
    (hc : betStageNeeded s = true) :
    (!(s.all_modalities.any fun m => m.bet) &&
      !(s.requires_defacing && defacerNeedsBet s.defacer)) = false := by
  simp only [betStageNeeded, Bool.or_eq_true] at hc
  rcases hc with hc | hc <;> simp [hc]

theorem run_brain_extraction_betDirCreated (s : PipelineState) :
    (run_brain_extraction s).betDirCreated =
      (s.betDirCreated || betStageNeeded s) := by
  by_cases hc : betStageNeeded s = true
  · have hred := betStageNeeded_false_parts s hc
    rcases hbe : s.brain_extractor with _ | be <;>
      simp only [run_brain_extraction, hred, Bool.false_eq_true, if_false, hbe] <;>
      simp [hc]
  · simp only [Bool.not_eq_true] at hc
    rw [run_brain_extraction_skip s hc]
    simp [hc]

theorem forall₂_grows_refl (l : List Modality) : List.Forall₂ Grows l l := by
  induction l with
  | nil => exact List.Forall₂.nil
  | cons a l ih => exact List.Forall₂.cons (grows_refl a) ih

theorem run_brain_extraction_run (s : PipelineState)
    (hc : betStageNeeded s = true) :
    ((run_brain_extraction s).center.steps .BET).isSome = true ∧
    (run_brain_extraction s).brain_extractor = some (s.brain_extractor.getD .hdbet) ∧
    (run_brain_extraction s).defacer = s.defacer ∧
    (run_brain_extraction s).temp_folder = s.temp_folder ∧
    (s.brain_extractor = none → hdbetFallbackWarning ∈ (run_brain_extraction s).log) := by
  have hred := betStageNeeded_false_parts s hc
  rcases hbe : s.brain_extractor with _ | be <;>
    simp only [run_brain_extraction, hred, Bool.false_eq_true, if_false, hbe] <;>
    simp [Modality.extract_brain_region, updStep, Option.getD]

theorem grows_run_brain_extraction (s : PipelineState) :
    Grows s.center (run_brain_extraction s).center ∧
    List.Forall₂ Grows s.moving (run_brain_extraction s).moving ∧
    (run_brain_extraction s).defacer = s.defacer ∧
    (run_brain_extraction s).temp_folder = s.temp_folder ∧
    (∀ w ∈ s.log, w ∈ (run_brain_extraction s).log) := by
  by_cases hc : betStageNeeded s = true
  · have hred := betStageNeeded_false_parts s hc
    rcases hbe : s.brain_extractor with _ | be
    · simp only [run_brain_extraction, hred, Bool.false_eq_true, if_false, hbe]
      refine ⟨grows_extract_brain_region s.center _,
        forall₂_grows_map fun m _ => grows_apply_bet_mask m _ _, ?_, ?_, ?_⟩
      · simp
      · simp
      · intro w hw
        simp [hw]
    · simp only [run_brain_extraction, hred, Bool.false_eq_true, if_false, hbe]
      refine ⟨grows_extract_brain_region s.center _,
        forall₂_grows_map fun m _ => grows_apply_bet_mask m _ _, ?_, ?_, ?_⟩
      · simp
      · simp
      · intro w hw
        simp [hw]
  · simp only [Bool.not_eq_true] at hc
    rw [run_brain_extraction_skip s hc]
    exact ⟨grows_refl _, forall₂_grows_refl _, rfl, rfl, fun w hw => by simp [hw]⟩

theorem pyOr_isSome_right (a b : Option String) (hb : b.isSome = true) :
    (pyOr a b).isSome = true := by
  cases a <;> simp [pyOr, hb]

theorem deface_quickshear_ok {m : Modality} {fa : Bool} {dir : String}
    {r : Option String} (h : m.deface (.quickshear fa) dir = .ok r) :
    (m.steps .BET).isSome = true := by
  unfold Modality.deface at h
  cases hb : m.steps .BET with
  | none => rw [hb] at h; exact absurd h (by simp)
  | some v => simp [hb]

theorem deface_quickshear_ok_of {m : Modality} {fa : Bool} {dir : String}
    (h : (m.steps .BET).isSome = true) :
    m.deface (.quickshear fa) dir =
      .ok (some (dir ++ "/" ++ m.modality_name ++ "_deface_mask.nii.gz")) := by
  unfold Modality.deface
  cases hb : m.steps .BET with
  | none => rw [hb] at h; exact absurd h (by simp)
  | some v => simp

theorem apply_deface_mask_ok_isSome {m m' : Modality} {df : Defacer}
    {mask : Option String} {dir : String}
    (h : m.apply_deface_mask df mask dir = .ok m') (t : PreprocessorSteps)
    (ht : (m.steps t).isSome = true) : (m'.steps t).isSome = true := by
  unfold Modality.apply_deface_mask at h
  by_cases hrd : m.requires_deface = true
  · rw [if_pos hrd] at h
    cases mask with
    | none => exact absurd h (by simp)
    | some mp =>
      cases hin : pyOr (if m.atlas_correction then m.steps .ATLAS_CORRECTED
          else m.steps .ATLAS_REGISTERED) (m.steps .COREGISTERED) with
      | none => rw [hin] at h; exact absurd h (by simp)
      | some v =>
        rw [hin] at h
        simp only [Except.ok.injEq] at h
        subst h
        exact updStep_isSome_mono m.steps .DEFACED _ t ht
  · rw [if_neg hrd] at h
    simp only [Except.ok.injEq] at h
    subst h
    exact ht

theorem apply_deface_mask_ok_of {m : Modality} {df : Defacer} {mask : String}
    {dir : String} (hco : (m.steps .COREGISTERED).isSome = true) :
    ∃ m', m.apply_deface_mask df (some mask) dir = .ok m' ∧
      (∀ t, (m.steps t).isSome = true → (m'.steps t).isSome = true) ∧
      (m.requires_deface = true → (m'.steps .DEFACED).isSome = true) := by
  unfold Modality.apply_deface_mask
  by_cases hrd : m.requires_deface = true
  · rw [if_pos hrd]
    cases hin : pyOr (if m.atlas_correction then m.steps .ATLAS_CORRECTED
        else m.steps .ATLAS_REGISTERED) (m.steps .COREGISTERED) with
    | none =>
      exact absurd hin (by
        have := pyOr_isSome_right (if m.atlas_correction then m.steps .ATLAS_CORRECTED
          else m.steps .ATLAS_REGISTERED) (m.steps .COREGISTERED) hco
        intro hn
        rw [hn] at this
        simp at this)
    | some v =>
      refine ⟨_, rfl, ?_, ?_⟩
      · intro t ht
        exact updStep_isSome_mono m.steps .DEFACED _ t ht
      · intro _
        simp [updStep]
  · rw [if_neg hrd]
    exact ⟨m, rfl, fun _ ht => ht, fun h => absurd h hrd⟩

theorem apply_deface_mask_requires_error {m : Modality} {df : Defacer}
    {dir : String} (hrd : m.requires_deface = true) :
    ∀ m', m.apply_deface_mask df none dir ≠ .ok m' := by
  intro m'
  unfold Modality.apply_deface_mask
  rw [if_pos hrd]
  simp

theorem mapExcept_ok_mem {f : Modality → Except String Modality}
    {l l' : List Modality} (h : mapExcept f l = .ok l') :
    ∀ a ∈ l, ∃ b, f a = .ok b := by
  induction l generalizing l' with
  | nil => simp
  | cons a l ih =>
    intro x hx
    unfold mapExcept at h
    cases hfa : f a with
    | error e => rw [hfa] at h; exact absurd h (by simp)
    | ok b =>
      rw [hfa] at h
      cases hml : mapExcept f l with
      | error e => rw [hml] at h; exact absurd h (by simp)
      | ok bs =>
        rcases List.mem_cons.1 hx with rfl | hx
        · exact ⟨b, hfa⟩
        · exact ih hml x hx

theorem mapExcept_ok_of {f : Modality → Except String Modality}
    {l : List Modality} (h : ∀ a ∈ l, ∃ b, f a = .ok b) :
    ∃ l', mapExcept f l = .ok l' := by
  induction l with
  | nil => exact ⟨[], rfl⟩
  | cons a l ih =>
    obtain ⟨b, hb⟩ := h a (by simp)
    obtain ⟨bs, hbs⟩ := ih fun x hx => h x (by simp [hx])
    exact ⟨b :: bs, by simp [mapExcept, hb, hbs]⟩

theorem run_defacing_skip (s : PipelineState)
    (hrd : s.requires_defacing = false) :
    run_defacing s = .ok { s with log := s.log ++ ["Skipping optional defacing."] } := by
  simp [run_defacing, hrd]

theorem run_defacing_default_ok (s : PipelineState)
    (hrd : s.requires_defacing = true)
    (hdf : s.defacer = none)
    (hbet : (s.center.steps .BET).isSome = true)
    (hco : ∀ m ∈ s.all_modalities, (m.steps .COREGISTERED).isSome = true) :
    ∃ s', run_defacing s = .ok s' ∧
      s'.defacer = some (.quickshear true) ∧
      quickshearFallbackWarning ∈ s'.log ∧
      (∀ t, (s.center.steps t).isSome = true → (s'.center.steps t).isSome = true) ∧
      (s.center.requires_deface = true → (s'.center.steps .DEFACED).isSome = true) := by
  have hmask := @deface_quickshear_ok_of s.center true
    (s.temp_folder ++ "/deface") hbet
  obtain ⟨c', hc', hcmono, hcdef⟩ :=
    @apply_deface_mask_ok_of s.center (.quickshear true)
      (s.temp_folder ++ "/deface" ++ "/" ++ s.center.modality_name ++ "_deface_mask.nii.gz")
      (s.temp_folder ++ "/deface")
      (hco s.center (by simp [PipelineState.all_modalities]))
  have hmv : ∀ a ∈ s.moving, ∃ b,
      a.apply_deface_mask (.quickshear true)
        (some (s.temp_folder ++ "/deface" ++ "/" ++ s.center.modality_name ++ "_deface_mask.nii.gz"))
        (s.temp_folder ++ "/deface") = .ok b := by
    intro a ha
    obtain ⟨b, hb, _, _⟩ :=
      @apply_deface_mask_ok_of a (.quickshear true)
        (s.temp_folder ++ "/deface" ++ "/" ++ s.center.modality_name ++ "_deface_mask.nii.gz")
        (s.temp_folder ++ "/deface")
        (hco a (by simp [PipelineState.all_modalities, ha]))
    exact ⟨b, hb⟩
  obtain ⟨mv', hmv'⟩ := mapExcept_ok_of hmv
  have heq : run_defacing s = .ok
      { s with
        center := c'
        moving := mv'
        defacer := some (.quickshear true)
        log := s.log ++ [quickshearFallbackWarning] } := by
    simp only [run_defacing, run_defacing_main, hrd, Bool.not_true,
      Bool.false_eq_true, if_false, hdf, hmask, hc', hmv']
  refine ⟨_, heq, rfl, by simp, ?_, ?_⟩
  · intro t ht
    exact hcmono t ht
  · intro h
    exact hcdef h

theorem run_defacing_main_quickshear_ok_bet {s s1 : PipelineState} {fa : Bool}
    (h : run_defacing_main s (.quickshear fa) = .ok s1) :
    (s.center.steps .BET).isSome = true ∧ (s1.center.steps .BET).isSome = true := by
  simp only [run_defacing_main] at h
  cases hmask : s.center.deface (.quickshear fa) (s.temp_folder ++ "/deface") with
  | error e => simp [hmask] at h
  | ok r =>
    have hbet := deface_quickshear_ok hmask
    simp only [hmask] at h
    cases hc : s.center.apply_deface_mask (.quickshear fa) r (s.temp_folder ++ "/deface") with
    | error e => simp [hc] at h
    | ok c' =>
      simp only [hc] at h
      cases hmv : mapExcept
          (fun m => m.apply_deface_mask (.quickshear fa) r (s.temp_folder ++ "/deface"))
          s.moving with
      | error e => simp [hmv] at h
      | ok mv' =>
        simp only [hmv, Except.ok.injEq] at h
        subst h
        exact ⟨hbet, apply_deface_mask_ok_isSome hc .BET hbet⟩

theorem run_defacing_main_other_ok {s s1 : PipelineState}
    (h : run_defacing_main s .other = .ok s1) :
    s.requires_defacing = false := by
  simp only [run_defacing_main] at h
  rw [show s.center.deface .other (s.temp_folder ++ "/deface") = .ok none from rfl] at h
  cases hc : s.center.apply_deface_mask .other none (s.temp_folder ++ "/deface") with
  | error e => simp [hc] at h
  | ok c' =>
    simp only [hc] at h
    have hcr : s.center.requires_deface = false := by
      by_contra hx
      exact apply_deface_mask_requires_error (by simpa using hx) c' hc
    cases hmv : mapExcept
        (fun m => m.apply_deface_mask .other none (s.temp_folder ++ "/deface"))
        s.moving with
    | error e => simp [hmv] at h
    | ok mv' =>
      have hmr : ∀ mm ∈ s.moving, mm.requires_deface = false := by
        intro mm hmm
        obtain ⟨b, hb⟩ := mapExcept_ok_mem hmv mm hmm
        by_contra hx
        exact apply_deface_mask_requires_error (by simpa using hx) b hb
      simp only [PipelineState.requires_defacing, PipelineState.all_modalities,
        List.any_cons, Bool.or_eq_false_iff, List.any_eq_false]
      refine ⟨hcr, ?_⟩
      intro mm hmm
      simp [hmr mm hmm]

theorem grows_state_no_defaced {s s' : PipelineState}
    (hc : Grows s.center s'.center)
    (hm : List.Forall₂ Grows s.moving s'.moving)
    (h : ∀ m ∈ s.all_modalities, m.steps .DEFACED = none) :
    ∀ m ∈ s'.all_modalities, m.steps .DEFACED = none := by
  intro m hmem
  rcases List.mem_cons.1 hmem with rfl | hmem
  · exact hc.2.2.2.2.2.2 (h s.center (by simp [PipelineState.all_modalities]))
  · obtain ⟨m0, hm0, hg⟩ := forall₂_grows_mem_right hm m hmem
    exact hg.2.2.2.2.2.2 (h m0 (by simp [PipelineState.all_modalities, hm0]))

theorem grows_state_all_coregistered {s s' : PipelineState}
    (hc : Grows s.center s'.center)
    (hm : List.Forall₂ Grows s.moving s'.moving)
    (h : ∀ m ∈ s.all_modalities, (m.steps .COREGISTERED).isSome = true) :
    ∀ m ∈ s'.all_modalities, (m.steps .COREGISTERED).isSome = true := by
  intro m hmem
  rcases List.mem_cons.1 hmem with rfl | hmem
  · exact hc.2.2.2.2.2.1 .COREGISTERED (h s.center (by simp [PipelineState.all_modalities]))
  · obtain ⟨m0, hm0, hg⟩ := forall₂_grows_mem_right hm m hmem
    exact hg.2.2.2.2.2.1 .COREGISTERED (h m0 (by simp [PipelineState.all_modalities, hm0]))

/-- Claim C3: composing an ordered list of 4x4 affine matrices applied in list
order yields the matrix product with the last-applied transform leftmost:
`compose([M]) = M`, `compose([A, B]) = B * A`, and for non-commuting `A`, `B`,
`compose([A, B])` differs from `compose([B, A])`. -/
theorem c3_compose_applies_in_order {R : Type} [Ring R] :
    (∀ M : Mat4 R, compose_affine_transforms [M] = some M) ∧
    (∀ A B : Mat4 R, compose_affine_transforms [A, B] = some (B * A)) ∧
    (∀ A B : Mat4 R, A * B ≠ B * A →
      compose_affine_transforms [A, B] ≠ compose_affine_transforms [B, A]) := by
  refine ⟨fun M => rfl, fun A B => rfl, fun A B h heq => ?_⟩
  simp only [compose_affine_transforms, List.foldl, Option.some.injEq] at heq
  exact h heq.symm

theorem c3_compose_applies_in_order_witness :
    composeWitnessA * composeWitnessB ≠ composeWitnessB * composeWitnessA ∧
    compose_affine_transforms [composeWitnessA, composeWitnessB] ≠
      compose_affine_transforms [composeWitnessB, composeWitnessA] :=
  ⟨by decide, c3_compose_applies_in_order.2.2 composeWitnessA composeWitnessB (by decide)⟩

/-- Claim C8: matrix inversion is a standard linear-algebra inverse: for every
invertible 4x4 matrix `M`, `M * invert(M)` is the identity and
`invert(invert(M)) = M` (exactly, in the idealised field arithmetic, hence in
particular within the 1e-5 float tolerance of the tests). -/
theorem c8_invert_is_linear_inverse {F : Type} [Field F] :
    ∀ M : Mat4 F, M.det ≠ 0 →
      M * invert_affine_transform M = 1 ∧
      invert_affine_transform (invert_affine_transform M) = M := by
  intro M h
  have hu : IsUnit M.det := isUnit_iff_ne_zero.mpr h
  constructor
  · rw [invert_affine_transform_eq_inv]
    exact Matrix.mul_nonsing_inv M hu
  · rw [invert_affine_transform_eq_inv, invert_affine_transform_eq_inv]
    exact Matrix.nonsing_inv_nonsing_inv M hu

theorem c8_invert_is_linear_inverse_witness :
    invertWitnessM.det ≠ 0 ∧
    (invertWitnessM * invert_affine_transform invertWitnessM = 1 ∧
     invert_affine_transform (invert_affine_transform invertWitnessM) = invertWitnessM) := by
  have hd : invertWitnessM.det ≠ 0 := by
    norm_num [invertWitnessM, Matrix.det_succ_row_zero, Fin.sum_univ_succ,
      Fin.succAbove, Fin.lt_def, Fin.ext_iff]
  exact ⟨hd, c8_invert_is_linear_inverse invertWitnessM hd⟩

/-- Claim C10: constructing a Modality with all six output paths equal to None
raises a ValueError; a successful construction implies at least one output
path was provided. -/
theorem c10_modality_requires_an_output :
    (∀ (name input : String) (normalizer ac n4 : Bool),
      Modality.init name input normalizer none none none none none none ac n4 =
        .error "All output paths are None. At least one output paths must be provided.") ∧
    (∀ (name input : String) (normalizer ac n4 : Bool)
        (rb rs rd nb ns nd : Option String) (m : Modality),
      Modality.init name input normalizer rb rs rd nb ns nd ac n4 = .ok m →
      (rb.isSome || rs.isSome || rd.isSome ||
        nb.isSome || ns.isSome || nd.isSome) = true) := by
  constructor
  · intro name input normalizer ac n4
    simp [Modality.init]
  · intro name input normalizer ac n4 rb rs rd nb ns nd m h
    cases rb <;> cases rs <;> cases rd <;> cases nb <;> cases ns <;> cases nd <;>
      simp_all [Modality.init]

theorem c10_modality_requires_an_output_witness :
    ((some "out/t1_bet.nii.gz" : Option String).isSome ||
      (none : Option String).isSome || (none : Option String).isSome ||
      (none : Option String).isSome || (none : Option String).isSome ||
      (none : Option String).isSome) = true ∧
    Modality.init "T1" "t1.nii.gz" false none none none none none none true false =
      .error "All output paths are None. At least one output paths must be provided." :=
  ⟨c10_modality_requires_an_output.2 "T1" "t1.nii.gz" false true false
      (some "out/t1_bet.nii.gz") none none none none none _ rfl,
   c10_modality_requires_an_output.1 "T1" "t1.nii.gz" false true false⟩

/-- Claim C6: when the deface-mask computation runs (Quickshear defacer) on a
center modality that requests a defaced output but has no BET artifact
recorded, `CenterModality.deface` raises a ValueError instead of silently
skipping. -/
theorem c6_deface_without_bet_raises :
    ∀ (m : Modality) (fa : Bool) (dir : String),
      m.requires_deface = true →
      m.steps .BET = none →
      m.deface (.quickshear fa) dir =
        .error "Brain extraction must be performed before defacing. Please run brain extraction first." := by
  intro m fa dir _ hbet
  simp [Modality.deface, hbet]

theorem c6_deface_without_bet_raises_witness :
    fixT1deface.requires_deface = true ∧
    fixT1deface.steps .BET = none ∧
    fixT1deface.deface (.quickshear true) "tmp/deface" =
      .error "Brain extraction must be performed before defacing. Please run brain extraction first." :=
  ⟨by decide, by decide,
   c6_deface_without_bet_raises fixT1deface true "tmp/deface" (by decide) (by decide)⟩

theorem mem_firstOccurrences {l : List String} {a : String} :
    a ∈ firstOccurrences l ↔ a ∈ l := by
  induction l with
  | nil => simp [firstOccurrences]
  | cons n rest ih =>
    simp only [firstOccurrences, List.mem_cons, List.mem_filter, ih]
    by_cases h : a = n <;> simp [h]

theorem duplicates_eq_nil_iff {l : List String} :
    duplicates l = [] ↔ l.Nodup := by
  rw [duplicates, List.filter_eq_nil_iff, List.nodup_iff_count_le_one]
  constructor
  · intro h a
    by_cases ha : a ∈ l
    · have := h a (mem_firstOccurrences.mpr ha)
      simp only [decide_eq_true_eq] at this
      omega
    · simp [List.count_eq_zero_of_not_mem ha]
  · intro h a _
    have := h a
    simp only [decide_eq_true_eq]
    omega

/-- Claim C4: a Preprocessor whose modality names are pairwise distinct is
constructed successfully; any repeated name makes construction fail with a
ValueError whose message lists every duplicated name. -/
theorem basePreprocessor_init_eq (center : Modality) (moving : List Modality)
    (be : Option BrainExtractorKind) (df : Option Defacer) (tf : String) :
    BasePreprocessor.init center moving be df tf =
      (if duplicates ((center :: moving).map (fun m => m.modality_name)) = []
       then .ok { temp_folder := tf, center := center, moving := moving,
                  brain_extractor := be, defacer := df, betDirCreated := false, log := [] }
       else .error ("Duplicate modality names found: " ++ String.intercalate ", "
          (duplicates ((center :: moving).map (fun m => m.modality_name))))) := by
  cases hd : duplicates ((center :: moving).map fun m => m.modality_name) with
  | nil =>
    simp only [BasePreprocessor.init, check_for_name_conflicts, hd, List.isEmpty_nil,
      if_true]
  | cons d ds =>
    simp only [BasePreprocessor.init, check_for_name_conflicts, hd, List.isEmpty_cons,
      Bool.false_eq_true, if_false]
    simp

theorem c4_duplicate_names_fail_fast :
    ∀ (center : Modality) (moving : List Modality)
      (be : Option BrainExtractorKind) (df : Option Defacer) (tf : String),
      ((BasePreprocessor.init center moving be df tf).isOk = true ↔
        ((center :: moving).map (fun m => m.modality_name)).Nodup) ∧
      (¬ ((center :: moving).map (fun m => m.modality_name)).Nodup →
        BasePreprocessor.init center moving be df tf =
          .error ("Duplicate modality names found: " ++
            String.intercalate ", "
              (duplicates ((center :: moving).map (fun m => m.modality_name))))) ∧
      (∀ n, 1 < ((center :: moving).map (fun m => m.modality_name)).count n →
        n ∈ duplicates ((center :: moving).map (fun m => m.modality_name))) := by
  intro center moving be df tf
  refine ⟨?_, ?_, ?_⟩
  · by_cases hnd : ((center :: moving).map (fun m => m.modality_name)).Nodup
    · rw [basePreprocessor_init_eq, if_pos (duplicates_eq_nil_iff.mpr hnd)]
      simpa [Except.isOk, Except.toBool] using hnd
    · rw [basePreprocessor_init_eq,
        if_neg (fun he => hnd (duplicates_eq_nil_iff.mp he))]
      simpa [Except.isOk, Except.toBool] using hnd
  · intro hnd
    rw [basePreprocessor_init_eq,
      if_neg (fun he => hnd (duplicates_eq_nil_iff.mp he))]
  · intro n hn
    have hmem : n ∈ (center :: moving).map (fun m => m.modality_name) := by
      by_contra hx
      rw [List.count_eq_zero_of_not_mem hx] at hn
      omega
    simp only [duplicates, List.mem_filter, mem_firstOccurrences]
    refine ⟨hmem, ?_⟩
    simp only [decide_eq_true_eq]
    simpa using hn

theorem c4_duplicate_names_fail_fast_witness :
    (BasePreprocessor.init fixT1skull [fixT2skull, fixFLAIRskull] none none "tmp").isOk = true ∧
    BasePreprocessor.init fixT1skull [fixT1dup, fixFLAIRskull] none none "tmp" =
      .error ("Duplicate modality names found: " ++ String.intercalate ", "
        (duplicates ((fixT1skull :: [fixT1dup, fixFLAIRskull]).map fun m => m.modality_name))) ∧
    "T1" ∈ duplicates ((fixT1skull :: [fixT1dup, fixFLAIRskull]).map fun m => m.modality_name) ∧
    "T1" ∈ duplicates
      ((fixT1skull :: [fixT1dup, fixFLAIRdup, fixFLAIRskull]).map fun m => m.modality_name) ∧
    "FLAIR" ∈ duplicates
      ((fixT1skull :: [fixT1dup, fixFLAIRdup, fixFLAIRskull]).map fun m => m.modality_name) := by
  refine ⟨?_, ?_, ?_, ?_, ?_⟩
  · exact (c4_duplicate_names_fail_fast fixT1skull [fixT2skull, fixFLAIRskull]
      none none "tmp").1.mpr (by decide)
  · exact (c4_duplicate_names_fail_fast fixT1skull [fixT1dup, fixFLAIRskull]
      none none "tmp").2.1 (by decide)
  · exact (c4_duplicate_names_fail_fast fixT1skull [fixT1dup, fixFLAIRskull]
      none none "tmp").2.2 "T1" (by decide)
  · exact (c4_duplicate_names_fail_fast fixT1skull [fixT1dup, fixFLAIRdup, fixFLAIRskull]
      none none "tmp").2.2 "T1" (by decide)
  · exact (c4_duplicate_names_fail_fast fixT1skull [fixT1dup, fixFLAIRdup, fixFLAIRskull]
      none none "tmp").2.2 "FLAIR" (by decide)

/-- Claim C7: `Transform.apply` fails fast, before invoking the registrator,
when the per-modality transformations directory does not exist; when it
exists, the recorded matrices are passed to `Registrator.transform` sorted by
file name (the files are named by stage, so this is stage order) for
`inverse=False`, and in exactly the reverse of that sorted order to
`Registrator.inverse_transform` for `inverse=True`. -/
theorem c7_transform_apply_sorted :
    ∀ (fs : String → Option (List String)) (tdir name : String),
      (fs (tdir ++ "/" ++ name) = none →
        ∀ inv : Bool, Transform.apply fs tdir name inv =
          .error ("Transformations directory for " ++ name ++
            " does not exist: " ++ (tdir ++ "/" ++ name))) ∧
      (∀ entries, fs (tdir ++ "/" ++ name) = some entries →
        Transform.apply fs tdir name false = .ok ⟨false, sortNames entries⟩ ∧
        Transform.apply fs tdir name true = .ok ⟨true, (sortNames entries).reverse⟩ ∧
        (sortNames entries).Perm entries ∧
        (sortNames entries).Sorted strLeProp) := by
  intro fs tdir name
  constructor
  · intro h inv
    simp [Transform.apply, h]
  · intro entries h
    exact ⟨by simp [Transform.apply, h], by simp [Transform.apply, h],
      sortNames_perm entries, sortNames_sorted entries⟩

theorem c7_transform_apply_sorted_witness :
    Transform.apply fsWitness "transformations" "T1" false =
      .ok ⟨false, sortNames ["2_M_atlas__T1.txt", "1_M_co__T1__T2.txt"]⟩ ∧
    Transform.apply fsWitness "transformations" "T1" true =
      .ok ⟨true, (sortNames ["2_M_atlas__T1.txt", "1_M_co__T1__T2.txt"]).reverse⟩ ∧
    sortNames ["2_M_atlas__T1.txt", "1_M_co__T1__T2.txt"] =
      ["1_M_co__T1__T2.txt", "2_M_atlas__T1.txt"] ∧
    Transform.apply fsWitness "transformations" "T2" false =
      .error ("Transformations directory for T2 does not exist: " ++
        ("transformations" ++ "/" ++ "T2")) := by
  have h := c7_transform_apply_sorted fsWitness "transformations" "T1"
  have h2 := h.2 ["2_M_atlas__T1.txt", "1_M_co__T1__T2.txt"] (by decide)
  refine ⟨h2.1, h2.2.1, by decide, ?_⟩
  exact (c7_transform_apply_sorted fsWitness "transformations" "T2").1 (by decide) false

/-- Claim C2 (amended): after register, transform, apply_bet_mask,
apply_deface_mask and the N4 correction update — each recording a stage at
least as high as every stage already recorded, as the pipeline always does —
the mutable `current` pointer equals the artifact of the highest recorded
stage; after `CenterModality.extract_brain_region` this holds provided the
modality requests a BET output.  (The two exceptions the code makes are the
BET-as-dependency case of `extract_brain_region`, refuted concretely in the
counterexample, and the atlas-correction copy recorded for the center without
advancing `current`.) -/
theorem c2_current_points_to_highest_stage :
    (∀ (m : Modality) (d n : String) (st : PreprocessorSteps),
      (∀ t, (m.steps t).isSome = true → t.value ≤ st.value) →
      ((m.register d n st).1).currentAtHighest = true) ∧
    (∀ (m : Modality) (d n mp : String) (st : PreprocessorSteps),
      (∀ t, (m.steps t).isSome = true → t.value ≤ st.value) →
      (m.transform d n mp st).currentAtHighest = true) ∧
    (∀ (m : Modality) (mk d : String),
      m.currentAtHighest = true →
      (∀ t, (m.steps t).isSome = true → t.value ≤ PreprocessorSteps.BET.value) →
      (m.apply_bet_mask mk d).currentAtHighest = true) ∧
    (∀ (m m' : Modality) (df : Defacer) (mask : Option String) (dir : String),
      m.currentAtHighest = true →
      m.apply_deface_mask df mask dir = .ok m' →
      m'.currentAtHighest = true) ∧
    (∀ (m : Modality) (d : String),
      m.currentAtHighest = true →
      (∀ t, (m.steps t).isSome = true →
        t.value ≤ PreprocessorSteps.N4_BIAS_CORRECTED.value) →
      (m.n4Correct d).currentAtHighest = true) ∧
    (∀ (m : Modality) (d : String),
      m.bet = true →
      (∀ t, (m.steps t).isSome = true → t.value ≤ PreprocessorSteps.BET.value) →
      ((m.extract_brain_region d).1).currentAtHighest = true) := by
  refine ⟨?_, ?_, ?_, ?_, ?_, ?_⟩
  · intro m d n st hmax
    refine currentAtHighest_of _ st ?_ ?_
    · simp [Modality.register, updStep]
    · intro t ht
      by_cases he : t = st
      · simp [he]
      · refine hmax t ?_
        simpa [Modality.register, updStep, he] using ht
  · intro m d n mp st hmax
    refine currentAtHighest_of _ st ?_ ?_
    · simp [Modality.transform, updStep]
    · intro t ht
      by_cases he : t = st
      · simp [he]
      · refine hmax t ?_
        simpa [Modality.transform, updStep, he] using ht
  · intro m mk d hinv hmax
    by_cases hb : m.bet
    · rw [Modality.apply_bet_mask, if_pos hb]
      refine currentAtHighest_of _ .BET ?_ ?_
      · simp [updStep]
      · intro t ht
        by_cases he : t = PreprocessorSteps.BET
        · simp [he]
        · refine hmax t ?_
          simpa [updStep, he] using ht
    · rw [Modality.apply_bet_mask, if_neg hb]
      exact hinv
  · intro m m' df mask dir hinv h
    simp only [Modality.apply_deface_mask] at h
    by_cases hrd : m.requires_deface = true
    · rw [if_pos hrd] at h
      cases mask with
      | none => exact absurd h (by simp)
      | some mp =>
        cases hin : pyOr (if m.atlas_correction then m.steps .ATLAS_CORRECTED
            else m.steps .ATLAS_REGISTERED) (m.steps .COREGISTERED) with
        | none => rw [hin] at h; exact absurd h (by simp)
        | some v =>
          rw [hin] at h
          simp only [Except.ok.injEq] at h
          subst h
          refine currentAtHighest_of _ .DEFACED ?_ ?_
          · simp [updStep]
          · intro t _
            cases t <;> simp [PreprocessorSteps.value]
    · rw [if_neg hrd] at h
      simp only [Except.ok.injEq] at h
      subst h
      exact hinv
  · intro m d hinv hmax
    by_cases hb : m.n4_bias_correction
    · rw [Modality.n4Correct, if_pos hb]
      refine currentAtHighest_of _ .N4_BIAS_CORRECTED ?_ ?_
      · simp [updStep]
      · intro t ht
        by_cases he : t = PreprocessorSteps.N4_BIAS_CORRECTED
        · simp [he]
        · refine hmax t ?_
          simpa [updStep, he] using ht
    · rw [Modality.n4Correct, if_neg hb]
      exact hinv
  · intro m d hb hmax
    refine currentAtHighest_of _ .BET ?_ ?_
    · simp [Modality.extract_brain_region, updStep, hb]
    · intro t ht
      by_cases he : t = PreprocessorSteps.BET
      · simp [he]
      · refine hmax t ?_
        simpa [Modality.extract_brain_region, updStep, he] using ht

/-- Claim C2 is false as stated: `CenterModality.extract_brain_region` on a
center modality that requests only a defaced output records the BET artifact
without advancing `current`, so `current` no longer equals the artifact of the
highest recorded stage. -/
theorem c2_counterexample :
    ((fixT1deface.extract_brain_region "tmp/brain-extraction").1).currentAtHighest
      = false := by decide

theorem c2_current_points_to_highest_stage_witness :
    ((fixT1deface.register "tmp/coregistration" "co__T1__T2"
      .COREGISTERED).1).currentAtHighest = true ∧
    (fixT2bet.apply_bet_mask "tmp/brain-extraction/T1_brain_mask.nii.gz"
      "tmp/brain-extraction").currentAtHighest = true ∧
    ((fixT2bet.extract_brain_region "tmp/brain-extraction").1).currentAtHighest = true := by
  refine ⟨?_, ?_, ?_⟩
  · exact c2_current_points_to_highest_stage.1 fixT1deface "tmp/coregistration"
      "co__T1__T2" .COREGISTERED (by decide)
  · exact c2_current_points_to_highest_stage.2.2.1 fixT2bet
      "tmp/brain-extraction/T1_brain_mask.nii.gz" "tmp/brain-extraction"
      (by decide) (by decide)
  · exact c2_current_points_to_highest_stage.2.2.2.2.2 fixT2bet
      "tmp/brain-extraction" (by decide) (by decide)

/-- Claim C5: the brain-extraction stage runs exactly when some modality
requests a BET output, or defacing is requested and the selected defacer is
Quickshear or none was supplied (`betStageNeeded`); otherwise it is a no-op
that only logs a skip message, and a full run in which no modality requests a
BET or defaced output never creates the brain-extraction working directory. -/
theorem c5_brain_extraction_exactly_when_needed :
    (∀ s : PipelineState, betStageNeeded s = false →
      run_brain_extraction s =
        { s with log := s.log ++ ["Skipping brain extraction."] }) ∧
    (∀ s : PipelineState,
      (run_brain_extraction s).betDirCreated =
        (s.betDirCreated || betStageNeeded s)) ∧
    (∀ s0 : PipelineState,
      (∀ m ∈ s0.all_modalities, m.bet = false ∧ m.requires_deface = false) →
      s0.betDirCreated = false →
      (s0.center.steps .INPUT).isSome = true →
      ∃ s1, AtlasCentricPreprocessor.run s0 = .ok s1 ∧ s1.betDirCreated = false) := by
  refine ⟨run_brain_extraction_skip, run_brain_extraction_betDirCreated, ?_⟩
  intro s0 hflags hbd hin
  have hsp := stage_runStages1to4 s0 hin
  have hflags4 := stagePreserves_flags hsp hflags
  have hany : ((runStages1to4 s0).all_modalities.any fun m => m.bet) = false := by
    rw [List.any_eq_false]
    intro m hm
    simp [(hflags4 m hm).1]
  have hrd4 : (runStages1to4 s0).requires_defacing = false := by
    rw [PipelineState.requires_defacing, List.any_eq_false]
    intro m hm
    simp [(hflags4 m hm).2]
  have hneed : betStageNeeded (runStages1to4 s0) = false := by
    simp [betStageNeeded, hany, hrd4]
  have hskip := run_brain_extraction_skip _ hneed
  have hrd5 : (run_brain_extraction (runStages1to4 s0)).requires_defacing = false := by
    rw [hskip]
    exact hrd4
  have hdefskip := run_defacing_skip _ hrd5
  have hbd1 : (run_brain_extraction (runStages1to4 s0)).betDirCreated = false := by
    rw [run_brain_extraction_betDirCreated, hneed, hsp.2.2.2.2.2.1, hbd]
    simp
  exact ⟨_, hdefskip, hbd1⟩

theorem c5_brain_extraction_exactly_when_needed_witness :
    ∃ s1, AtlasCentricPreprocessor.run cfgC5 = .ok s1 ∧ s1.betDirCreated = false :=
  c5_brain_extraction_exactly_when_needed.2.2 cfgC5 (by decide) rfl (by decide)

/-- Claim C9: when a defaced output is requested for the center but no brain
extractor and no defacer were supplied, the pipeline does not fail: brain
extraction falls back to HD-BET with a logged warning (recording a BET
artifact for the center), defacing falls back to Quickshear with a logged
warning, the run proceeds, and the BET artifact of the center exists before
and while its DEFACED artifact is written. -/
theorem c9_default_collaborator_fallback :
    ∀ s0 : PipelineState,
      s0.brain_extractor = none →
      s0.defacer = none →
      s0.center.requires_deface = true →
      (s0.center.steps .INPUT).isSome = true →
      ((run_brain_extraction (runStages1to4 s0)).brain_extractor = some .hdbet ∧
       hdbetFallbackWarning ∈ (run_brain_extraction (runStages1to4 s0)).log ∧
       ((run_brain_extraction (runStages1to4 s0)).center.steps .BET).isSome = true) ∧
      ∃ s7, AtlasCentricPreprocessor.run s0 = .ok s7 ∧
        s7.defacer = some (.quickshear true) ∧
        quickshearFallbackWarning ∈ s7.log ∧
        (s7.center.steps .BET).isSome = true ∧
        (s7.center.steps .DEFACED).isSome = true := by
  intro s0 hbe hdf hcrd hin
  have hsp := stage_runStages1to4 s0 hin
  have hrd4 : (runStages1to4 s0).requires_defacing = true := by
    rw [stagePreserves_requires_defacing hsp]
    simp [PipelineState.requires_defacing, PipelineState.all_modalities,
      List.any_cons, hcrd]
  have hdf4 : (runStages1to4 s0).defacer = none := hsp.2.2.2.1.trans hdf
  have hbe4 : (runStages1to4 s0).brain_extractor = none := hsp.2.2.2.2.1.trans hbe
  have hneed : betStageNeeded (runStages1to4 s0) = true := by
    simp [betStageNeeded, hrd4, hdf4, defacerNeedsBet]
  obtain ⟨hbet6, hbext6, hdface6, htmp6, hwarn6⟩ :=
    run_brain_extraction_run (runStages1to4 s0) hneed
  have hg6 := grows_run_brain_extraction (runStages1to4 s0)
  have hrd6 : (run_brain_extraction (runStages1to4 s0)).requires_defacing = true := by
    simp only [PipelineState.requires_defacing, PipelineState.all_modalities,
      List.any_cons]
    rw [hg6.1.2.2.1, forall₂_grows_any_deface hg6.2.1]
    simpa [PipelineState.requires_defacing, PipelineState.all_modalities,
      List.any_cons] using hrd4
  have hdf6 : (run_brain_extraction (runStages1to4 s0)).defacer = none :=
    hdface6.trans hdf4
  have hco4 : ∀ m ∈ (runStages1to4 s0).all_modalities,
      (m.steps .COREGISTERED).isSome = true := by
    have h1 := coreg_all_coregistered s0 hin
    have h2 := stagePreserves_all_coregistered (stage_run_atlas_registration _) h1
    have h3 := stagePreserves_all_coregistered (stage_run_atlas_correction _) h2
    exact stagePreserves_all_coregistered (stage_run_n4_bias_correction _) h3
  have hco6 : ∀ m ∈ (run_brain_extraction (runStages1to4 s0)).all_modalities,
      (m.steps .COREGISTERED).isSome = true :=
    grows_state_all_coregistered hg6.1 hg6.2.1 hco4
  obtain ⟨s7, hrun7, hdf7, hwarn7, hmono7, hdefc7⟩ :=
    run_defacing_default_ok (run_brain_extraction (runStages1to4 s0))
      hrd6 hdf6 hbet6 hco6
  refine ⟨⟨?_, hwarn6 hbe4, hbet6⟩, s7, hrun7, hdf7, hwarn7, hmono7 .BET hbet6, ?_⟩
  · rw [hbext6, hbe4]
    rfl
  · refine hdefc7 ?_
    rw [hg6.1.2.2.1, hsp.1.2.2.1]
    exact hcrd

theorem c9_default_collaborator_fallback_witness :
    ((run_brain_extraction (runStages1to4 cfgC9)).brain_extractor = some .hdbet ∧
     hdbetFallbackWarning ∈ (run_brain_extraction (runStages1to4 cfgC9)).log ∧
     ((run_brain_extraction (runStages1to4 cfgC9)).center.steps .BET).isSome = true) ∧
    ∃ s7, AtlasCentricPreprocessor.run cfgC9 = .ok s7 ∧
      s7.defacer = some (.quickshear true) ∧
      quickshearFallbackWarning ∈ s7.log ∧
      (s7.center.steps .BET).isSome = true ∧
      (s7.center.steps .DEFACED).isSome = true :=
  c9_default_collaborator_fallback cfgC9 rfl rfl (by decide) (by decide)

/-- Claim C1 (amended): after a full run that completes, a DEFACED artifact
recorded for ANY modality implies that the BET artifact of the CENTER
modality is non-null (the mask dependency is the center BET); the
per-modality form of the claim holds for the center itself but fails for a
moving modality that requests a defaced output without a BET output, as the
counterexample shows. -/
theorem c1_defaced_only_with_center_bet :
    ∀ s0 : PipelineState,
      (∀ m ∈ s0.all_modalities, m.steps .DEFACED = none) →
      (s0.center.steps .INPUT).isSome = true →
      ∀ s1, AtlasCentricPreprocessor.run s0 = .ok s1 →
        ∀ m ∈ s1.all_modalities, (m.steps .DEFACED).isSome = true →
          (s1.center.steps .BET).isSome = true := by
  intro s0 hd0 hin s1 hrun m hm hds
  have hsp := stage_runStages1to4 s0 hin
  have hg6 := grows_run_brain_extraction (runStages1to4 s0)
  have hd4 := stagePreserves_no_defaced hsp hd0
  have hd6 := grows_state_no_defaced hg6.1 hg6.2.1 hd4
  have hrun' : run_defacing (run_brain_extraction (runStages1to4 s0)) = .ok s1 := hrun
  by_cases hrd : (run_brain_extraction (runStages1to4 s0)).requires_defacing = true
  · simp only [run_defacing, hrd, Bool.not_true, Bool.false_eq_true, if_false] at hrun'
    rcases hdfc : (run_brain_extraction (runStages1to4 s0)).defacer with _ | d
    · simp only [hdfc] at hrun'
      exact (run_defacing_main_quickshear_ok_bet hrun').2
    · rcases d with fa | _
      · simp only [hdfc] at hrun'
        exact (run_defacing_main_quickshear_ok_bet hrun').2
      · simp only [hdfc] at hrun'
        have hfalse := run_defacing_main_other_ok hrun'
        rw [hfalse] at hrd
        exact absurd hrd (by simp)
  · simp only [Bool.not_eq_true] at hrd
    rw [run_defacing_skip _ hrd] at hrun'
    simp only [Except.ok.injEq] at hrun'
    subst hrun'
    exact absurd hds (by simp [hd6 m hm])

/-- Claim C1 is false as stated: a run where the center requests only a skull
output and the moving modality T2 requests only a defaced output completes
with T2 having a DEFACED artifact but a null BET entry. -/
theorem c1_counterexample :
    Except.map (fun st => st.moving.map fun m =>
        ((m.steps .DEFACED).isSome, (m.steps .BET).isSome))
      ((BasePreprocessor.init fixT1skull [fixT2deface] none none "tmp").bind
        AtlasCentricPreprocessor.run) = .ok [(true, false)] := by rfl

theorem c1_defaced_only_with_center_bet_witness :
    ∃ s1, AtlasCentricPreprocessor.run cfgC1 = .ok s1 ∧
      (s1.center.steps .BET).isSome = true := by
  refine ⟨_, rfl, ?_⟩
  exact c1_defaced_only_with_center_bet cfgC1 (by decide) (by decide) _ rfl _
    (List.mem_cons_self _ _) (by decide)
